import Mathlib

/-!
Verification of the bank-statement parser generator (`agent.py`).

The development shallowly embeds the three core components of the program:

* the transaction line parser (`_parse_icici_transactions` /
  `_parse_generic_transactions`, which differ only in their keyword list),
  modelled over `List Char`;
* the comparison logic of `_test_parser` (normalization, exact pass,
  lenient "core data" pass) over a small DataFrame model;
* the reference-CSV fallback (`_fallback_to_csv`) and the driver retry
  loop (`PDFParserAgent.run` / `main`).

External library behaviour (pandas `read_csv` column inference,
`to_numeric(errors="coerce")`, `to_datetime(format="%d-%m-%Y")` followed by
`strftime`) is modelled by executable functions restricted to plain decimal
numeric literals and `DD-MM-YYYY` dates, which covers the data this program
manipulates.
-/

namespace AgentSpec

/-! ### Transaction line parser (embedded from the generated parser code) -/

/-- Character class `[\d,]` used by the amount regex `[\d,]+\.\d{2}`. -/
def isAmountCls (c : Char) : Bool := c.isDigit || c == ','

/-- Two decimal digits at the head of the remaining characters (`\d{2}`);
anything beyond them is ignored, exactly as Python's `re.match` only anchors
at the start of the token. -/
def twoDigits : List Char → Bool
  | a :: b :: _ => a.isDigit && b.isDigit
  | _ => false

/-- Continuation of the amount regex after its first `[\d,]` character:
keep consuming `[\d,]`, then require a literal `.` followed by two
digits. -/
def amountTail : List Char → Bool
  | [] => false
  | c :: rest =>
    if isAmountCls c then amountTail rest
    else if c = '.' then twoDigits rest
    else false

/-- `re.match(r'[\d,]+\.\d{2}', tok)` viewed as a Bool: the token starts with
one or more digit-or-comma characters, then a dot and two digits. -/
def isAmountTok (cs : List Char) : Bool :=
  match cs with
  | [] => false
  | c :: rest => isAmountCls c && amountTail rest

/-- Ten characters shaped like `DD-MM-YYYY` (two digits, dash, two digits,
dash, four digits). -/
def dateShape (cs : List Char) : Bool :=
  decide (cs.length = 10) && (cs.getD 0 ' ').isDigit && (cs.getD 1 ' ').isDigit &&
    decide (cs.getD 2 ' ' = '-') && (cs.getD 3 ' ').isDigit &&
    (cs.getD 4 ' ').isDigit && decide (cs.getD 5 ' ' = '-') &&
    (cs.getD 6 ' ').isDigit && (cs.getD 7 ' ').isDigit &&
    (cs.getD 8 ' ').isDigit && (cs.getD 9 ' ').isDigit

/-- The date pattern matches at the head of `cs`. -/
def dateAt (cs : List Char) : Bool := dateShape (cs.take 10)

/-- `re.search(r'\d{2}-\d{2}-\d{4}', line)`: the date pattern matches at some
position of the line. -/
def hasDate : List Char → Bool
  | [] => false
  | c :: rest => dateAt (c :: rest) || hasDate rest

/-- Split on a single separator character, keeping empty segments
(Python `str.split(sep)`). -/
def splitCharAux (sep : Char) : List Char → List Char → List (List Char)
  | [], acc => [acc.reverse]
  | c :: rest, acc =>
    if c = sep then acc.reverse :: splitCharAux sep rest []
    else splitCharAux sep rest (c :: acc)

/-- Split on a single separator character (Python `str.split(sep)`). -/
def splitChar (sep : Char) (cs : List Char) : List (List Char) :=
  splitCharAux sep cs []

/-- Split on runs of whitespace, dropping empty segments
(Python `str.split()` with no argument). -/
def wsSplitAux : List Char → List Char → List (List Char)
  | [], acc => if acc.isEmpty then [] else [acc.reverse]
  | c :: rest, acc =>
    if c.isWhitespace then
      if acc.isEmpty then wsSplitAux rest []
      else acc.reverse :: wsSplitAux rest []
    else wsSplitAux rest (c :: acc)

/-- Python `str.split()` with no argument. -/
def wsSplit (cs : List Char) : List (List Char) := wsSplitAux cs []

/-- Python `str.strip()`: drop whitespace from both ends. -/
def trimL (cs : List Char) : List Char :=
  ((cs.dropWhile Char.isWhitespace).reverse.dropWhile Char.isWhitespace).reverse

/-- Python space-join of the token list. -/
def joinSpaces : List (List Char) → List Char
  | [] => []
  | [x] => x
  | x :: xs => x ++ ' ' :: joinSpaces xs

/-- Python `str.lower()` (ASCII). -/
def lowerL (cs : List Char) : List Char := cs.map Char.toLower

/-- Python substring test `needle in hay`. -/
def containsSub (needle : List Char) : List Char → Bool
  | [] => needle.isEmpty
  | c :: t => needle.isPrefixOf (c :: t) || containsSub needle t

/-- `any(word in description.lower() for word in kws)`. -/
def keywordHit (kws : List String) (desc : List Char) : Bool :=
  kws.any (fun w => containsSub w.toList (lowerL desc))

/-- Python `tok.replace(',', '')`. -/
def stripCommas (cs : List Char) : List Char := cs.filter (fun c => c ≠ ',')

/-- One transaction record, as built by the generated parser; empty list
stands for the empty-string sentinel used for absent fields. -/
structure Txn where
  date : List Char
  description : List Char
  debitAmt : List Char
  creditAmt : List Char
  balance : List Char
deriving DecidableEq

/-- The amount-count branching of the generated parser: returns
`(debit, credit, balance)` given the description and the list of amount
tokens found on the line. -/
def assignAmounts (kws : List String) (desc : List Char) :
    List (List Char) → List Char × List Char × List Char
  | [] => ([], [], [])
  | [a] => if keywordHit kws desc then (a, [], []) else ([], a, [])
  | [a, b] => if keywordHit kws desc then (a, [], b) else ([], a, b)
  | a :: b :: c :: _ => (a, b, c)

/-- Description of a line: the non-amount tokens after the date, joined with
single spaces, in order. -/
def lineDescOf (rest : List (List Char)) : List Char :=
  joinSpaces (rest.filter (fun p => !(isAmountTok p)))

/-- Amount tokens of a line: tokens after the date matching the amount
pattern, each with its commas stripped, in order. -/
def lineAmountsOf (rest : List (List Char)) : List (List Char) :=
  (rest.filter isAmountTok).map stripCommas

/-- Description extracted from a raw line (tokens after the first). -/
def lineDesc (line : List Char) : List Char :=
  lineDescOf ((wsSplit (trimL line)).tail)

/-- Amount tokens extracted from a raw line (tokens after the first). -/
def lineAmounts (line : List Char) : List (List Char) :=
  lineAmountsOf ((wsSplit (trimL line)).tail)

/-- Build the record for a date-bearing line from its date token and the
remaining tokens; the record is kept only if the description is non-empty
and at least one of debit/credit is non-empty. -/
def mkRecord (kws : List String) (date : List Char) (rest : List (List Char)) :
    Option Txn :=
  if lineDescOf rest ≠ [] ∧
      ((assignAmounts kws (lineDescOf rest) (lineAmountsOf rest)).1 ≠ [] ∨
        (assignAmounts kws (lineDescOf rest) (lineAmountsOf rest)).2.1 ≠ []) then
    some ⟨date, lineDescOf rest,
      (assignAmounts kws (lineDescOf rest) (lineAmountsOf rest)).1,
      (assignAmounts kws (lineDescOf rest) (lineAmountsOf rest)).2.1,
      (assignAmounts kws (lineDescOf rest) (lineAmountsOf rest)).2.2⟩
  else none

/-- Per-line behaviour of `_parse_icici_transactions` /
`_parse_generic_transactions`: strip the line, skip it when empty or when the
`DD-MM-YYYY` search fails, require at least 3 whitespace tokens, take the
first token as the date, classify the rest, and apply the record guard. -/
def parseLine (kws : List String) (rawLine : List Char) : Option Txn :=
  if (trimL rawLine).isEmpty = true then none
  else if hasDate (trimL rawLine) = false then none
  else
    match wsSplit (trimL rawLine) with
    | date :: p2 :: p3 :: rest => mkRecord kws date (p2 :: p3 :: rest)
    | _ => none

/-- Whole-text behaviour: split the extracted text on newlines and fold every
line through `parseLine`, collecting the accepted records in order. -/
def parseTransactions (kws : List String) (text : String) : List Txn :=
  (splitChar '\n' text.toList).filterMap (parseLine kws)

/-- Keyword hints of the ICICI template. -/
def iciciKeywords : List String := ["debit", "withdrawal", "payment", "purchase"]

/-- Keyword hints of the generic template. -/
def genericKeywords : List String :=
  ["debit", "withdrawal", "payment", "purchase", "atm", "card"]

/-- Modelled from the spec: a token that *fully* matches
`digits with optional thousands separators, a literal decimal point, and
exactly two decimal digits` (the spec's amount pattern, anchored at both
ends, unlike the program's `re.match`). -/
def specFullAmountTok (cs : List Char) : Bool :=
  match cs.reverse with
  | b :: a :: '.' :: rest =>
    a.isDigit && b.isDigit && !rest.isEmpty && rest.all isAmountCls
  | _ => false

/-- Declarative characterization of the code's amount test: some prefix of
the token is `[\d,]+` followed by `.` and two digits. -/
def AmountPrefixShape (cs : List Char) : Prop :=
  ∃ ds a b rest, cs = ds ++ '.' :: a :: b :: rest ∧ ds ≠ [] ∧
    (∀ c ∈ ds, isAmountCls c = true) ∧ a.isDigit = true ∧ b.isDigit = true

/-! ### DataFrame model and the comparison logic of `_test_parser` -/

/-- A finite decimal `mant / 10 ^ fexp`, the only numbers this program's
data contains, kept canonical (no trailing fraction zeros, and `fexp = 0`
when `mant = 0`) so that the numeric equality pandas applies to its floats
coincides with structural equality. -/
structure Dec where
  mant : ℤ
  fexp : ℕ
deriving DecidableEq

/-- A pandas cell as this program uses them: `NaN`, a number, or a string.
The empty string `Cell.str ""` is the sentinel for absent fields. -/
inductive Cell where
  | nan : Cell
  | num : Dec → Cell
  | str : String → Cell
deriving DecidableEq

/-- The normalization of `_test_parser`: `fillna('')` followed by
`replace(0.0, '')` sends `NaN` and numeric zero to the empty-string
sentinel. -/
def normCell : Cell → Cell
  | .nan => .str ""
  | .num q => if q.mant = 0 then .str "" else .num q
  | .str s => .str s

/-- A DataFrame: a list of column names and a list of rows of cells. -/
structure DF where
  cols : List String
  rows : List (List Cell)
deriving DecidableEq

/-- Normalization applied to a whole DataFrame. -/
def normalizeDF (df : DF) : DF :=
  ⟨df.cols, df.rows.map (List.map normCell)⟩

/-- `df[name]`: the column of cells under a name, `none` when the name is
absent (pandas raises `KeyError` there). -/
def dfCol (df : DF) (name : String) : Option (List Cell) :=
  (df.cols.findIdx? (fun c => c = name)).map
    (fun i => df.rows.map (fun r => r.getD i (.str "")))

/-- `df1[name].equals(df2[name])`; a missing column models the raised
`KeyError`, which `_test_parser` catches and turns into a failure. -/
def colEquals (a b : DF) (name : String) : Bool :=
  match dfCol a name, dfCol b name with
  | some x, some y => decide (x = y)
  | _, _ => false

/-- Outcome of the comparison in `_test_parser`: the exact pass
(`result_df.equals(expected_df)`), the lenient "core data matches" pass, or
failure. -/
inductive CmpResult where
  | pass : CmpResult
  | passLenient : CmpResult
  | fail : CmpResult
deriving DecidableEq

/-- The comparison of `_test_parser`: normalize both sides, try the exact
equality, then fall back to the lenient check (equal row count, equal column
list, elementwise-equal `Date` and `Balance` columns). -/
def compareDF (res expd : DF) : CmpResult :=
  if normalizeDF res = normalizeDF expd then .pass
  else if (normalizeDF res).rows.length = (normalizeDF expd).rows.length ∧
      (normalizeDF res).cols = (normalizeDF expd).cols ∧
      colEquals (normalizeDF res) (normalizeDF expd) "Date" = true ∧
      colEquals (normalizeDF res) (normalizeDF expd) "Balance" = true then
    .passLenient
  else .fail

/-- The fixed output schema of the generated parsers and reference CSVs. -/
def stdCols : List String :=
  ["Date", "Description", "Debit Amt", "Credit Amt", "Balance"]

/-! ### Reference CSV, pandas numeric conversion, and the fallback path -/

/-- One raw row of the reference CSV, as unparsed text fields. -/
structure CsvRow where
  date : String
  description : String
  debit : String
  credit : String
  balance : String
deriving DecidableEq

/-- Value of a digit string. -/
def digitsToNat (cs : List Char) : ℕ :=
  cs.foldl (fun a c => 10 * a + (c.toNat - 48)) 0

/-- Powers of ten. -/
def pow10 : ℕ → ℕ
  | 0 => 1
  | n + 1 => 10 * pow10 n

/-- Strip the trailing zeros of a fraction-digit list, canonicalizing the
decimal they denote. -/
def canonFrac (frac : List Char) : List Char :=
  (frac.reverse.dropWhile (fun c => c = '0')).reverse

/-- Model of numeric-literal parsing as used by pandas `read_csv` column
inference and `to_numeric`: an optional minus sign, then digits with an
optional single decimal point. -/
def parseNum (s : String) : Option Dec :=
  match s.toList with
  | [] => none
  | c0 :: t0 =>
    let cs2 := if c0 = '-' then t0 else c0 :: t0
    let sgn : ℤ := if c0 = '-' then -1 else 1
    let ip := cs2.takeWhile Char.isDigit
    match cs2.dropWhile Char.isDigit with
    | [] =>
      if ip.isEmpty then none
      else some ⟨sgn * (digitsToNat ip : ℤ), 0⟩
    | '.' :: frac =>
      if frac.all Char.isDigit = true ∧ ¬(ip.isEmpty = true ∧ frac.isEmpty = true) then
        some ⟨sgn * ((digitsToNat ip : ℤ) * (pow10 (canonFrac frac).length : ℤ) +
          (digitsToNat (canonFrac frac) : ℤ)), (canonFrac frac).length⟩
      else none
    | _ => none

/-- A raw CSV field read into a numeric column: empty becomes `NaN`,
otherwise the parsed number. -/
def rawToCellNum (s : String) : Cell :=
  if s = "" then Cell.nan else Cell.num ((parseNum s).getD ⟨0, 0⟩)

/-- A raw CSV field read into an object column: empty becomes `NaN`,
otherwise the string is kept. -/
def rawToCellStr (s : String) : Cell :=
  if s = "" then Cell.nan else Cell.str s

/-- pandas `read_csv` per-column dtype inference: a column is numeric when
every non-empty field parses as a number, otherwise it stays an object
column of strings. -/
def inferCol (cells : List String) : List Cell :=
  if cells.all (fun s => s == "" || (parseNum s).isSome) then
    cells.map rawToCellNum
  else
    cells.map rawToCellStr

/-- Rebuild rows from the five columns of the fixed schema. -/
def zipRows5 : List Cell → List Cell → List Cell → List Cell → List Cell →
    List (List Cell)
  | xa :: ta, xb :: tb, xc :: tc, xd :: td, xe :: te =>
    [xa, xb, xc, xd, xe] :: zipRows5 ta tb tc td te
  | _, _, _, _, _ => []

/-- `pd.read_csv` on the reference CSV: per-column inference over the five
schema columns. -/
def readCsv (rows : List CsvRow) : DF :=
  ⟨stdCols,
    zipRows5 (inferCol (rows.map (fun r => r.date)))
      (inferCol (rows.map (fun r => r.description)))
      (inferCol (rows.map (fun r => r.debit)))
      (inferCol (rows.map (fun r => r.credit)))
      (inferCol (rows.map (fun r => r.balance)))⟩

/-- Gregorian leap year. -/
def isLeapYear (y : ℕ) : Bool :=
  y % 4 = 0 && (y % 100 ≠ 0 || y % 400 = 0)

/-- Days in a month. -/
def daysInMonth (m y : ℕ) : ℕ :=
  if m = 2 then (if isLeapYear y then 29 else 28)
  else if m = 4 ∨ m = 6 ∨ m = 9 ∨ m = 11 then 30
  else 31

/-- Model of `pd.to_datetime(s, format='%d-%m-%Y')`: one or two day digits,
dash, one or two month digits, dash, exactly four year digits, with a
calendar-valid day and month; `none` models the raised parse error. -/
def parseDate (s : String) : Option (ℕ × ℕ × ℕ) :=
  let cs := s.toList
  let ds := cs.takeWhile Char.isDigit
  match cs.dropWhile Char.isDigit with
  | '-' :: r2 =>
    let ms := r2.takeWhile Char.isDigit
    match r2.dropWhile Char.isDigit with
    | '-' :: ys =>
      if 1 ≤ ds.length ∧ ds.length ≤ 2 ∧ 1 ≤ ms.length ∧ ms.length ≤ 2 ∧
          ys.length = 4 ∧ ys.all Char.isDigit = true then
        if 1 ≤ digitsToNat ms ∧ digitsToNat ms ≤ 12 ∧ 1 ≤ digitsToNat ds ∧
            digitsToNat ds ≤ daysInMonth (digitsToNat ms) (digitsToNat ys) then
          some (digitsToNat ds, digitsToNat ms, digitsToNat ys)
        else none
      else none
    | _ => none
  | _ => none

/-- Zero-pad to two digits. -/
def pad2 (n : ℕ) : String := if n < 10 then "0" ++ toString n else toString n

/-- Zero-pad to four digits. -/
def pad4 (n : ℕ) : String :=
  if n < 10 then "000" ++ toString n
  else if n < 100 then "00" ++ toString n
  else if n < 1000 then "0" ++ toString n
  else toString n

/-- `strftime('%d-%m-%Y')`. -/
def formatDate : ℕ × ℕ × ℕ → String
  | (d, m, y) => pad2 d ++ "-" ++ pad2 m ++ "-" ++ pad4 y

/-- `pd.to_datetime(cell, format='%d-%m-%Y').strftime('%d-%m-%Y')` on one
cell: `NaN` passes through (`NaT`), a numeric cell or an unparsable string
raises (modelled by `none`). -/
def dateCellRoundTrip : Cell → Option Cell
  | .nan => some .nan
  | .num _ => none
  | .str s => (parseDate s).map (fun dmy => Cell.str (formatDate dmy))

/-- `pd.to_numeric(cell, errors='coerce')`. -/
def toNumericCoerce : Cell → Cell
  | .nan => .nan
  | .num q => .num q
  | .str s => match parseNum s with | some q => .num q | none => .nan

/-- `fillna('')` on one cell. -/
def fillnaEmptyStr : Cell → Cell
  | .nan => .str ""
  | c => c

/-- `_fallback_to_csv`: re-read the reference CSV, round-trip the `Date`
column through `%d-%m-%Y`, coerce `Debit Amt`/`Credit Amt` to numbers with
`fillna('')`, and coerce `Balance` to numbers. An error models the exception
raised on an unparsable date. -/
def fallbackToCsv (rows : List CsvRow) : Option DF :=
  match (inferCol (rows.map (fun r => r.date))).mapM dateCellRoundTrip with
  | none => none
  | some d2 =>
    some ⟨stdCols,
      zipRows5 d2 (inferCol (rows.map (fun r => r.description)))
        ((inferCol (rows.map (fun r => r.debit))).map
          (fun c => fillnaEmptyStr (toNumericCoerce c)))
        ((inferCol (rows.map (fun r => r.credit))).map
          (fun c => fillnaEmptyStr (toNumericCoerce c)))
        ((inferCol (rows.map (fun r => r.balance))).map toNumericCoerce)⟩

/-- The `parse` success branch: build a DataFrame from the extracted
records, round-trip `Date`, coerce the amount columns to numbers and fill
the debit/credit `NaN`s with the empty-string sentinel. -/
def txnsToDf (txns : List Txn) : Option DF :=
  match (txns.map (fun t => Cell.str ⟨t.date⟩)).mapM dateCellRoundTrip with
  | none => none
  | some d2 =>
    some ⟨stdCols,
      zipRows5 d2 (txns.map (fun t => Cell.str ⟨t.description⟩))
        (txns.map (fun t => fillnaEmptyStr (toNumericCoerce (Cell.str ⟨t.debitAmt⟩))))
        (txns.map (fun t => fillnaEmptyStr (toNumericCoerce (Cell.str ⟨t.creditAmt⟩))))
        (txns.map (fun t => toNumericCoerce (Cell.str ⟨t.balance⟩)))⟩

/-- The generated parser's `parse` function: on an extraction error, an
empty record list, or an error while building the DataFrame, fall back to
the reference CSV (`none` for the CSV argument models a missing reference
file, on which the fallback itself raises); `none` as a result models an
uncaught exception. -/
def parseDoc (kws : List String) (extract : Except String String)
    (csv : Option (List CsvRow)) : Option DF :=
  let fb : Option DF :=
    match csv with
    | none => none
    | some rows => fallbackToCsv rows
  match extract with
  | Except.error _ => fb
  | Except.ok text =>
    if (parseTransactions kws text).isEmpty = true then fb
    else
      match txnsToDf (parseTransactions kws text) with
      | none => fb
      | some df => some df

/-- A field acceptable to a numeric column: empty or a numeric literal. -/
def NumOrEmpty (s : String) : Prop := s = "" ∨ (parseNum s).isSome = true

/-- A reference CSV the fallback reproduces exactly: every date is a
`DD-MM-YYYY` string that round-trips unchanged, and every amount field is
empty or numeric. -/
def WellFormedCsv (rows : List CsvRow) : Prop :=
  ∀ r ∈ rows,
    (parseDate r.date).map formatDate = some r.date ∧
    NumOrEmpty r.debit ∧ NumOrEmpty r.credit ∧ NumOrEmpty r.balance

/-- A reference CSV whose `Debit Amt` field holds the non-numeric string
`"abc"`. -/
def csvBad : List CsvRow := [⟨"01-01-2024", "X", "abc", "5.00", "10.00"⟩]

/-! ### Generation/retry driver (`PDFParserAgent.run` and `main`) -/

/-- Outcome of one attempt of the driver loop: the test passed, the test
returned `False` (with the error strings `_test_parser` itself appended,
empty on a clean comparison failure), or an exception was caught at the
driver level. -/
inductive Outcome where
  | pass : Outcome
  | testFalse : List String → Outcome
  | exc : String → Outcome
deriving DecidableEq

/-- The mutable fields of `AgentState` the loop touches. -/
structure AgentState where
  attempt : ℕ
  maxAttempts : ℕ
  success : Bool
  errorLog : List String
deriving DecidableEq

/-- `AgentState` as `PDFParserAgent.__init__` creates it. -/
def initState (m : ℕ) : AgentState := ⟨1, m, false, []⟩

/-- The `while` loop of `PDFParserAgent.run`, fuelled: on a pass, set
`success` and stop; on a `False` test result, append its inner errors and
increment the attempt; on a caught exception, append the message and
increment the attempt. -/
def runLoop (env : ℕ → Outcome) : ℕ → AgentState → AgentState
  | 0, s => s
  | f + 1, s =>
    if s.attempt ≤ s.maxAttempts ∧ s.success = false then
      match env s.attempt with
      | .pass => { s with success := true }
      | .testFalse errs =>
        runLoop env f { s with attempt := s.attempt + 1, errorLog := s.errorLog ++ errs }
      | .exc e =>
        runLoop env f { s with attempt := s.attempt + 1, errorLog := s.errorLog ++ [e] }
    else s

/-- `PDFParserAgent.run`: the loop runs at most `maxAttempts` iterations
because every non-passing iteration increments `attempt`. -/
def run (env : ℕ → Outcome) (s : AgentState) : AgentState :=
  runLoop env (s.maxAttempts + 1 - s.attempt) s

/-- `main`: exit code 0 when the run succeeded, 1 otherwise. -/
def mainExitCode (env : ℕ → Outcome) (m : ℕ) : ℕ :=
  if (run env (initState m)).success then 0 else 1

/-- `_analyze_data`: raise on a missing reference CSV, then on a missing
input PDF. -/
def analyzeData (csvExists pdfExists : Bool) : Except String Unit :=
  if csvExists = false then Except.error "CSV file not found"
  else if pdfExists = false then Except.error "PDF file not found"
  else Except.ok ()

/-- Per-attempt outcome when `_analyze_data` runs first in every attempt:
a missing file raises and is caught by the driver's generic handler,
otherwise the attempt proceeds as `rest` dictates. -/
def envOfFiles (csvExists pdfExists : Bool) (rest : ℕ → Outcome) :
    ℕ → Outcome :=
  fun k =>
    match analyzeData csvExists pdfExists with
    | Except.error e => Outcome.exc e
    | Except.ok _ => rest k

/-- Error strings one attempt contributes to `error_log`. -/
def errsOf : Outcome → List String
  | .pass => []
  | .testFalse errs => errs
  | .exc e => [e]

/-- An environment whose every attempt fails the comparison cleanly
(no exception anywhere, `_test_parser` returns `False` with nothing
appended). -/
def cleanFailEnv : ℕ → Outcome := fun _ => Outcome.testFalse []

/-- An environment whose first attempt fails the comparison and whose second
attempt passes. -/
def passSecondEnv : ℕ → Outcome :=
  fun k => if k = 2 then Outcome.pass else Outcome.testFalse ["mismatch"]

/-- A well-formed reference CSV (the two transactions of the spec's
end-to-end example). -/
def csvGood : List CsvRow :=
  [⟨"01-01-2024", "Salary Credit", "", "5000.00", "10000.00"⟩,
   ⟨"02-01-2024", "ATM Withdrawal", "2000.00", "", "8000.00"⟩]

/-- A produced table differing from `dfLenE` only in the `Description`
cell. -/
def dfLenR : DF :=
  ⟨stdCols, [[Cell.str "01-01-2024", Cell.str "A", Cell.num ⟨1, 0⟩,
    Cell.str "", Cell.num ⟨5, 0⟩]]⟩

/-- The expected table `dfLenR` is compared against. -/
def dfLenE : DF :=
  ⟨stdCols, [[Cell.str "01-01-2024", Cell.str "B", Cell.num ⟨1, 0⟩,
    Cell.str "", Cell.num ⟨5, 0⟩]]⟩

/-! ### Theorems -/

/-- C5: the exact pass of the comparison is reflexive — a table always
passes the exact check against itself, both sides being normalized by the
same `fillna('')` / `replace(0.0, '')` pipeline. -/
theorem compare_reflexive (T : DF) : compareDF T T = CmpResult.pass := by
  rw [compareDF, if_pos rfl]

/-- Stepping the loop when the loop guard holds and the attempt passes. -/
theorem runLoop_succ_pass (env : ℕ → Outcome) (f : ℕ) (s : AgentState)
    (hg : s.attempt ≤ s.maxAttempts ∧ s.success = false)
    (he : env s.attempt = Outcome.pass) :
    runLoop env (f + 1) s = { s with success := true } := by
  rw [runLoop, if_pos hg, he]

/-- Stepping the loop when the loop guard holds and the test returns
`False`. -/
theorem runLoop_succ_testFalse (env : ℕ → Outcome) (f : ℕ) (s : AgentState)
    (errs : List String) (hg : s.attempt ≤ s.maxAttempts ∧ s.success = false)
    (he : env s.attempt = Outcome.testFalse errs) :
    runLoop env (f + 1) s =
      runLoop env f { s with attempt := s.attempt + 1, errorLog := s.errorLog ++ errs } := by
  rw [runLoop, if_pos hg, he]

/-- Stepping the loop when the loop guard holds and an exception is caught
at the driver level. -/
theorem runLoop_succ_exc (env : ℕ → Outcome) (f : ℕ) (s : AgentState)
    (e : String) (hg : s.attempt ≤ s.maxAttempts ∧ s.success = false)
    (he : env s.attempt = Outcome.exc e) :
    runLoop env (f + 1) s =
      runLoop env f { s with attempt := s.attempt + 1, errorLog := s.errorLog ++ [e] } := by
  rw [runLoop, if_pos hg, he]

/-- The loop state reached when `_analyze_data` raises on every attempt:
every attempt is consumed, each appending one error string. -/
theorem runLoop_all_exc (env : ℕ → Outcome) (msg : ℕ → String)
    (henv : ∀ k, env k = Outcome.exc (msg k)) :
    ∀ f (s : AgentState), s.success = false → s.attempt + f = s.maxAttempts + 1 →
      (runLoop env f s).success = false ∧
      (runLoop env f s).attempt = s.maxAttempts + 1 ∧
      (runLoop env f s).errorLog.length = s.errorLog.length + f ∧
      (runLoop env f s).maxAttempts = s.maxAttempts := by
  intro f
  induction f with
  | zero =>
    intro s hs hf
    rw [runLoop]
    exact ⟨hs, by omega, by omega, rfl⟩
  | succ f ih =>
    intro s hs hf
    rw [runLoop_succ_exc env f s (msg s.attempt) ⟨by omega, hs⟩ (henv s.attempt)]
    have h2 := ih { s with attempt := s.attempt + 1, errorLog := s.errorLog ++ [msg s.attempt] } hs (by simp; omega)
    dsimp only at h2
    simp only [List.length_append, List.length_cons, List.length_nil] at h2
    refine ⟨h2.1, ?_, ?_, ?_⟩
    · rw [h2.2.1]
    · rw [h2.2.2.1]; omega
    · rw [h2.2.2.2]

/-- C3 (corrected, counterexample): with the reference CSV missing and a
generator that would otherwise pass, the driver still consumes all 3
attempts (final counter 4), logging the missing-file error 3 times — the
missing file is retried, not fatal. -/
theorem missing_file_retries_counterexample :
    (run (envOfFiles false true (fun _ => Outcome.pass)) (initState 3)).attempt = 4 ∧
    (run (envOfFiles false true (fun _ => Outcome.pass)) (initState 3)).success = false ∧
    (run (envOfFiles false true (fun _ => Outcome.pass)) (initState 3)).errorLog.length = 3 := by
  decide

/-- C3 (amended): a missing input document or reference CSV is caught by the
driver's generic per-attempt handler like any other error; it consumes every
attempt, appends its message each time, and the run ends in exhausted
failure with exit code 1. -/
theorem missing_file_consumes_all_attempts (csvE pdfE : Bool)
    (rest : ℕ → Outcome) (m : ℕ) (h : csvE = false ∨ pdfE = false) :
    (run (envOfFiles csvE pdfE rest) (initState m)).success = false ∧
    (run (envOfFiles csvE pdfE rest) (initState m)).attempt = m + 1 ∧
    (run (envOfFiles csvE pdfE rest) (initState m)).errorLog.length = m ∧
    mainExitCode (envOfFiles csvE pdfE rest) m = 1 := by
  have henv : ∀ k, envOfFiles csvE pdfE rest k = Outcome.exc
      (if csvE = false then "CSV file not found" else "PDF file not found") := by
    intro k
    rcases h with h | h
    · subst h; simp [envOfFiles, analyzeData]
    · subst h
      cases csvE <;> simp [envOfFiles, analyzeData]
  have hrun : run (envOfFiles csvE pdfE rest) (initState m) =
      runLoop (envOfFiles csvE pdfE rest) m (initState m) := by
    rw [run]; simp [initState]
  have h2 := runLoop_all_exc (envOfFiles csvE pdfE rest) _ henv m (initState m) rfl
    (by simp [initState]; omega)
  rw [hrun]
  refine ⟨h2.1, by rw [h2.2.1]; simp [initState], by rw [h2.2.2.1]; simp [initState], ?_⟩
  rw [mainExitCode, hrun, if_neg (by rw [h2.1]; simp)]

/-- C3 (witness for the amended theorem): missing input PDF, two attempts. -/
theorem missing_file_consumes_all_attempts_witness :
    (run (envOfFiles true false (fun _ => Outcome.pass)) (initState 2)).attempt = 3 ∧
    mainExitCode (envOfFiles true false (fun _ => Outcome.pass)) 2 = 1 :=
  ⟨(missing_file_consumes_all_attempts true false (fun _ => Outcome.pass) 2
      (Or.inr rfl)).2.1,
   (missing_file_consumes_all_attempts true false (fun _ => Outcome.pass) 2
      (Or.inr rfl)).2.2.2⟩

/-- C9 (corrected, counterexample): three clean comparison failures consume
all attempts but append no error string at all — a failed attempt does not
always append an error. -/
theorem retry_clean_fail_counterexample :
    (run cleanFailEnv (initState 3)).attempt = 4 ∧
    (run cleanFailEnv (initState 3)).success = false ∧
    (run cleanFailEnv (initState 3)).errorLog = [] := by
  decide

/-- Full invariant of the driver loop: the attempt counter stays within
bounds, failure states exhaust the counter, success states stop at a passing
attempt, no passing attempt is skipped, and the error log is exactly the
concatenation of the error strings of the attempts that ran and failed. -/
theorem runLoop_spec (env : ℕ → Outcome) :
    ∀ f (s : AgentState), s.success = false → s.attempt + f = s.maxAttempts + 1 →
      (runLoop env f s).maxAttempts = s.maxAttempts ∧
      s.attempt ≤ (runLoop env f s).attempt ∧
      (runLoop env f s).attempt ≤ s.maxAttempts + 1 ∧
      ((runLoop env f s).success = false →
        (runLoop env f s).attempt = s.maxAttempts + 1) ∧
      ((runLoop env f s).success = true →
        (runLoop env f s).attempt ≤ s.maxAttempts ∧
        env (runLoop env f s).attempt = Outcome.pass) ∧
      (∀ j, s.attempt ≤ j → j < (runLoop env f s).attempt → env j ≠ Outcome.pass) ∧
      (runLoop env f s).errorLog = s.errorLog ++
        ((List.range' s.attempt ((runLoop env f s).attempt - s.attempt)).map
          (fun k => errsOf (env k))).flatten := by
  intro f
  induction f with
  | zero =>
    intro s hs hf
    rw [runLoop]
    refine ⟨rfl, le_refl _, by omega, fun _ => by omega,
      fun ht => absurd ht (by rw [hs]; simp), fun j h1 h2 => absurd h2 (by omega), ?_⟩
    simp
  | succ f ih =>
    intro s hs hf
    cases hout : env s.attempt with
    | pass =>
      rw [runLoop_succ_pass env f s ⟨by omega, hs⟩ hout]
      dsimp only
      refine ⟨rfl, le_refl _, by omega, fun hfa => by simp at hfa,
        fun _ => ⟨by omega, hout⟩, fun j h1 h2 => absurd h2 (by omega), ?_⟩
      simp
    | testFalse errs =>
      rw [runLoop_succ_testFalse env f s errs ⟨by omega, hs⟩ hout]
      have h2 := ih { s with attempt := s.attempt + 1, errorLog := s.errorLog ++ errs } hs (by simp; omega)
      dsimp only at h2
      obtain ⟨hm, hle, hub, hfa, hsu, hnp, hlog⟩ := h2
      refine ⟨hm, by omega, by omega, fun hx => by rw [hfa hx], ?_, ?_, ?_⟩
      · intro hx
        obtain ⟨ha, hb⟩ := hsu hx
        exact ⟨by omega, hb⟩
      · intro j h1j h2j
        rcases Nat.eq_or_lt_of_le h1j with hj | hj
        · rw [← hj, hout]; intro hc; cases hc
        · exact hnp j (by omega) h2j
      · rw [hlog]
        have hsub : (runLoop env f { s with attempt := s.attempt + 1, errorLog := s.errorLog ++ errs }).attempt - s.attempt = ((runLoop env f { s with attempt := s.attempt + 1, errorLog := s.errorLog ++ errs }).attempt - (s.attempt + 1)) + 1 := by
          omega
        rw [hsub, List.range'_succ, List.map_cons, List.flatten_cons, hout]
        simp [errsOf, List.append_assoc]
    | exc e =>
      rw [runLoop_succ_exc env f s e ⟨by omega, hs⟩ hout]
      have h2 := ih { s with attempt := s.attempt + 1, errorLog := s.errorLog ++ [e] } hs (by simp; omega)
      dsimp only at h2
      obtain ⟨hm, hle, hub, hfa, hsu, hnp, hlog⟩ := h2
      refine ⟨hm, by omega, by omega, fun hx => by rw [hfa hx], ?_, ?_, ?_⟩
      · intro hx
        obtain ⟨ha, hb⟩ := hsu hx
        exact ⟨by omega, hb⟩
      · intro j h1j h2j
        rcases Nat.eq_or_lt_of_le h1j with hj | hj
        · rw [← hj, hout]; intro hc; cases hc
        · exact hnp j (by omega) h2j
      · rw [hlog]
        have hsub : (runLoop env f { s with attempt := s.attempt + 1, errorLog := s.errorLog ++ [e] }).attempt - s.attempt = ((runLoop env f { s with attempt := s.attempt + 1, errorLog := s.errorLog ++ [e] }).attempt - (s.attempt + 1)) + 1 := by
          omega
        rw [hsub, List.range'_succ, List.map_cons, List.flatten_cons, hout]
        simp [errsOf, List.append_assoc]

/-- C9 (amended): the retry loop always terminates within `maxAttempts`
generate-test cycles; it exits immediately on a passing test (no earlier
attempt passed and the counter stops there, exit code 0); exhaustion without
success leaves the counter at `maxAttempts + 1` and exit code 1; the error
log is exactly the concatenation of the error strings of the failed
attempts — which is empty for a clean comparison failure, so a failed
attempt does not always append an error string. -/
theorem retry_loop_bounded (env : ℕ → Outcome) (m : ℕ) :
    (run env (initState m)).attempt ≤ m + 1 ∧
    ((run env (initState m)).success = false →
      (run env (initState m)).attempt = m + 1 ∧ mainExitCode env m = 1) ∧
    ((run env (initState m)).success = true →
      (run env (initState m)).attempt ≤ m ∧
      env (run env (initState m)).attempt = Outcome.pass ∧
      mainExitCode env m = 0) ∧
    (∀ j, 1 ≤ j → j < (run env (initState m)).attempt → env j ≠ Outcome.pass) ∧
    (run env (initState m)).errorLog =
      ((List.range' 1 ((run env (initState m)).attempt - 1)).map
        (fun k => errsOf (env k))).flatten := by
  have hrun : run env (initState m) = runLoop env m (initState m) := by
    rw [run]; simp [initState]
  have h2 := runLoop_spec env m (initState m) rfl (by simp [initState]; omega)
  rw [hrun]
  obtain ⟨hm, hle, hub, hfa, hsu, hnp, hlog⟩ := h2
  have hatt : (initState m).attempt = 1 := rfl
  have hmax : (initState m).maxAttempts = m := rfl
  have hlogi : (initState m).errorLog = [] := rfl
  simp only [hatt, hmax, hlogi] at hm hle hub hfa hsu hnp hlog
  refine ⟨hub, ?_, ?_, hnp, by simpa using hlog⟩
  · intro hx
    refine ⟨by rw [hfa hx], ?_⟩
    rw [mainExitCode, hrun, if_neg (by simp [hx])]
  · intro hx
    obtain ⟨ha, hb⟩ := hsu hx
    refine ⟨by omega, hb, ?_⟩
    rw [mainExitCode, hrun, if_pos (by rw [hx])]

/-- C9 (witness for the amended theorem): an environment failing on attempt 1
and passing on attempt 2, with ceiling 3. -/
theorem retry_loop_bounded_witness :
    (run passSecondEnv (initState 3)).attempt ≤ 4 ∧
    mainExitCode passSecondEnv 3 = 0 :=
  ⟨(retry_loop_bounded passSecondEnv 3).1,
   ((retry_loop_bounded passSecondEnv 3).2.2.1 (by decide)).2.2⟩

/-- Structure of an accepted line: the stripped line splits into a date
token and at least two further tokens, the record's fields are computed by
`assignAmounts` from the classified tokens, and the record guard held. -/
theorem parseLine_eq_some {kws : List String} {line : List Char} {t : Txn}
    (h : parseLine kws line = some t) :
    ∃ date rest, wsSplit (trimL line) = date :: rest ∧ 2 ≤ rest.length ∧
      lineDesc line = lineDescOf rest ∧ lineAmounts line = lineAmountsOf rest ∧
      t.date = date ∧ t.description = lineDescOf rest ∧
      t.debitAmt = (assignAmounts kws (lineDescOf rest) (lineAmountsOf rest)).1 ∧
      t.creditAmt = (assignAmounts kws (lineDescOf rest) (lineAmountsOf rest)).2.1 ∧
      t.balance = (assignAmounts kws (lineDescOf rest) (lineAmountsOf rest)).2.2 ∧
      t.description ≠ [] ∧ (t.debitAmt ≠ [] ∨ t.creditAmt ≠ []) := by
  rw [parseLine] at h
  split at h
  · exact absurd h (by simp)
  · split at h
    · exact absurd h (by simp)
    · split at h
      · rename_i date p2 p3 rest heq
        refine ⟨date, p2 :: p3 :: rest, heq, by simp, ?_⟩
        have hdesc : lineDesc line = lineDescOf (p2 :: p3 :: rest) := by
          rw [lineDesc, heq]
          rfl
        have hamts : lineAmounts line = lineAmountsOf (p2 :: p3 :: rest) := by
          rw [lineAmounts, heq]
          rfl
        rw [mkRecord] at h
        split at h
        · rename_i hguard
          injection h with h2
          subst h2
          exact ⟨hdesc, hamts, rfl, rfl, rfl, rfl, rfl, hguard.1, hguard.2⟩
        · exact absurd h (by simp)
      · exact absurd h (by simp)

/-- C8: every record present in the parser's output table has a non-empty
description and at least one of debit/credit populated; the guard in front
of `transactions.append` admits nothing else. -/
theorem record_guard_invariant (kws : List String) (text : String) (t : Txn)
    (h : t ∈ parseTransactions kws text) :
    t.description ≠ [] ∧ (t.debitAmt ≠ [] ∨ t.creditAmt ≠ []) := by
  rw [parseTransactions, List.mem_filterMap] at h
  obtain ⟨l, _, hl⟩ := h
  obtain ⟨date, rest, h1, h2, h3, h4, h5, h6, h7, h8, h9, h10, h11⟩ :=
    parseLine_eq_some hl
  exact ⟨h10, h11⟩

/-- C8 (witness): the record of a concrete one-line statement. -/
theorem record_guard_invariant_witness :
    ("ATM Cash".toList ≠ ([] : List Char)) ∧
    ("200.00".toList ≠ ([] : List Char) ∨ ([] : List Char) ≠ ([] : List Char)) :=
  record_guard_invariant genericKeywords "01-01-2024 ATM Cash 200.00"
    ⟨"01-01-2024".toList, "ATM Cash".toList, "200.00".toList, [], []⟩ (by decide)

/-- C1: for every line the parser accepts, the amount-to-field assignment is
decided solely by the number of amount tokens: one amount goes to debit when
the lower-cased description contains a keyword hint and to credit otherwise
with balance absent; with two amounts the first follows the same rule and
the second is always balance; with three or more the first three are
debit, credit, balance positionally and the rest are dropped. `kws` covers
both profiles (`iciciKeywords`, `genericKeywords`). -/
theorem amount_count_assignment (kws : List String) (line : List Char) (t : Txn)
    (h : parseLine kws line = some t) :
    ((lineAmounts line).length = 1 →
      (if keywordHit kws (lineDesc line) then
        t.debitAmt = (lineAmounts line).getD 0 [] ∧ t.creditAmt = []
      else
        t.debitAmt = [] ∧ t.creditAmt = (lineAmounts line).getD 0 []) ∧
      t.balance = []) ∧
    ((lineAmounts line).length = 2 →
      (if keywordHit kws (lineDesc line) then
        t.debitAmt = (lineAmounts line).getD 0 [] ∧ t.creditAmt = []
      else
        t.debitAmt = [] ∧ t.creditAmt = (lineAmounts line).getD 0 []) ∧
      t.balance = (lineAmounts line).getD 1 []) ∧
    (3 ≤ (lineAmounts line).length →
      t.debitAmt = (lineAmounts line).getD 0 [] ∧
      t.creditAmt = (lineAmounts line).getD 1 [] ∧
      t.balance = (lineAmounts line).getD 2 []) := by
  obtain ⟨date, rest, h1, h2, h3, h4, h5, h6, h7, h8, h9, h10, h11⟩ :=
    parseLine_eq_some h
  rw [h3, h4, h7, h8, h9]
  cases hxs : lineAmountsOf rest with
  | nil => exact ⟨by simp [hxs], by simp [hxs], by simp [hxs]⟩
  | cons a tl =>
    cases tl with
    | nil =>
      rw [assignAmounts]
      refine ⟨fun _ => ?_, by simp, by simp⟩
      split <;> exact ⟨⟨rfl, rfl⟩, rfl⟩
    | cons b tl2 =>
      cases tl2 with
      | nil =>
        rw [assignAmounts]
        refine ⟨by simp, fun _ => ?_, by simp⟩
        split <;> exact ⟨⟨rfl, rfl⟩, rfl⟩
      | cons c tl3 =>
        rw [assignAmounts]
        exact ⟨by simp, by simp, fun _ => ⟨rfl, rfl, rfl⟩⟩

/-- C1 (witness): a concrete two-amount line in the generic profile, whose
description contains the keyword "withdrawal". -/
theorem amount_count_assignment_witness :
    (2 ≤ 2 → ("2000.00".toList = "2000.00".toList ∧ ([] : List Char) = []) ∧
      "8000.00".toList = "8000.00".toList) ∧ True := by
  have h := amount_count_assignment genericKeywords
    ("02-01-2024 ATM Withdrawal 2000.00 8000.00".toList)
    ⟨"02-01-2024".toList, "ATM Withdrawal".toList, "2000.00".toList, [], "8000.00".toList⟩
    (by decide)
  refine ⟨fun _ => ?_, trivial⟩
  have h2 := h.2.1 (by decide)
  rw [if_pos (by decide)] at h2
  exact ⟨⟨h2.1.1, h2.1.2⟩, h2.2⟩

/-- A non-empty list survives the amount test's comma stripping: a matched
token always contains a dot, which `replace(',', '')` keeps. -/
theorem amountTail_mem_dot {l : List Char} (h : amountTail l = true) :
    '.' ∈ l := by
  induction l with
  | nil => simp [amountTail] at h
  | cons c rest ih =>
    rw [amountTail] at h
    by_cases hcls : isAmountCls c = true
    · rw [if_pos hcls] at h
      exact List.mem_cons_of_mem _ (ih h)
    · rw [if_neg hcls] at h
      by_cases hdot : c = '.'
      · rw [hdot]
        exact List.mem_cons_self _ _
      · rw [if_neg hdot] at h
        exact absurd h (by simp)

/-- The comma-stripped form of a token matching the amount pattern is
non-empty. -/
theorem isAmountTok_stripCommas_ne {cs : List Char}
    (h : isAmountTok cs = true) : stripCommas cs ≠ [] := by
  cases cs with
  | nil => simp [isAmountTok] at h
  | cons c rest =>
    rw [isAmountTok, Bool.and_eq_true] at h
    have hdot : '.' ∈ c :: rest := List.mem_cons_of_mem c (amountTail_mem_dot h.2)
    have : '.' ∈ stripCommas (c :: rest) := by
      rw [stripCommas]
      exact List.mem_filter.mpr ⟨hdot, by decide⟩
    exact List.ne_nil_of_mem this

/-- Every entry of a line's amount list is non-empty. -/
theorem lineAmountsOf_ne_nil {rest : List (List Char)} {x : List Char}
    (hx : x ∈ lineAmountsOf rest) : x ≠ [] := by
  rw [lineAmountsOf, List.mem_map] at hx
  obtain ⟨y, hy, hxy⟩ := hx
  rw [← hxy]
  exact isAmountTok_stripCommas_ne (List.of_mem_filter hy)

/-- C10: on every accepted line with at most two amount tokens, exactly one
of debit/credit is populated and the other is the empty sentinel; debit and
credit are both populated only on lines carrying three or more amount
tokens. -/
theorem debit_credit_exclusive (kws : List String) (line : List Char) (t : Txn)
    (h : parseLine kws line = some t) :
    ((lineAmounts line).length ≤ 2 →
      (t.debitAmt ≠ [] ∧ t.creditAmt = []) ∨
      (t.debitAmt = [] ∧ t.creditAmt ≠ [])) ∧
    (t.debitAmt ≠ [] ∧ t.creditAmt ≠ [] → 3 ≤ (lineAmounts line).length) := by
  obtain ⟨date, rest, h1, h2, h3, h4, h5, h6, h7, h8, h9, h10, h11⟩ :=
    parseLine_eq_some h
  rw [h4]
  cases hxs : lineAmountsOf rest with
  | nil =>
    rw [hxs] at h4
    rw [h7, h8, hxs, assignAmounts] at h11
    simp at h11
  | cons a tl =>
    have ha : a ≠ [] := lineAmountsOf_ne_nil (hxs ▸ List.mem_cons_self a tl)
    cases tl with
    | nil =>
      rw [h7, h8, hxs, assignAmounts]
      constructor
      · intro _
        split
        · exact Or.inl ⟨ha, rfl⟩
        · exact Or.inr ⟨rfl, ha⟩
      · intro hboth
        exfalso
        rcases hboth with ⟨hd, hc⟩
        revert hd hc
        split <;> simp
    | cons b tl2 =>
      cases tl2 with
      | nil =>
        rw [h7, h8, hxs, assignAmounts]
        constructor
        · intro _
          split
          · exact Or.inl ⟨ha, rfl⟩
          · exact Or.inr ⟨rfl, ha⟩
        · intro hboth
          exfalso
          rcases hboth with ⟨hd, hc⟩
          revert hd hc
          split <;> simp
      | cons c tl3 =>
        refine ⟨fun hlen => by simp at hlen, fun _ => by simp⟩

/-- C10 (witness): a concrete single-amount line in the ICICI profile. -/
theorem debit_credit_exclusive_witness :
    (("500.00".toList = ([] : List Char) ∧ ([] : List Char) ≠ []) ∨
      ("500.00".toList ≠ ([] : List Char) ∧ ([] : List Char) = [])) ∨ True := by
  have h := debit_credit_exclusive iciciKeywords
    ("03-01-2024 Cash Payment 500.00".toList)
    ⟨"03-01-2024".toList, "Cash Payment".toList, "500.00".toList, [], []⟩ (by decide)
  have h2 := h.1 (by decide)
  rcases h2 with h2 | h2
  · exact Or.inl (Or.inr ⟨h2.1, h2.2⟩)
  · exact Or.inl (Or.inl ⟨h2.1, h2.2⟩)

/-- A list accepted by the date shape has exactly ten characters. -/
theorem dateShape_length {l : List Char} (h : dateShape l = true) :
    l.length = 10 := by
  rw [dateShape] at h
  simp only [Bool.and_eq_true, decide_eq_true_eq] at h
  exact h.1.1.1.1.1.1.1.1.1.1

/-- A date match at the head of `cs` survives appending characters, as a
regex search does. -/
theorem dateAt_append {cs : List Char} (ext : List Char)
    (h : dateAt cs = true) : dateAt (cs ++ ext) = true := by
  have hlen : 10 ≤ cs.length := by
    rw [dateAt] at h
    have h10 := dateShape_length h
    simp only [List.length_take] at h10
    omega
  rw [dateAt, List.take_append_eq_append_take]
  have hz : 10 - cs.length = 0 := by omega
  rw [hz, List.take_zero, List.append_nil]
  rw [dateAt] at h
  exact h

/-- A date search succeeding on a prefix succeeds on the whole list. -/
theorem hasDate_append_right {a : List Char} (b : List Char)
    (h : hasDate a = true) : hasDate (a ++ b) = true := by
  induction a with
  | nil => simp [hasDate] at h
  | cons c rest ih =>
    rw [List.cons_append, hasDate, Bool.or_eq_true]
    rw [hasDate, Bool.or_eq_true] at h
    rcases h with h | h
    · exact Or.inl (by rw [← List.cons_append]; exact dateAt_append b h)
    · exact Or.inr (ih h)

/-- A date search succeeding on a suffix succeeds on the whole list. -/
theorem hasDate_append_left (a : List Char) {b : List Char}
    (h : hasDate b = true) : hasDate (a ++ b) = true := by
  induction a with
  | nil => simpa using h
  | cons c rest ih =>
    rw [List.cons_append, hasDate, Bool.or_eq_true]
    exact Or.inr ih

/-- `dropWhile` yields a suffix. -/
theorem dropWhile_isSuffix (p : Char → Bool) (l : List Char) :
    l.dropWhile p <:+ l := by
  induction l with
  | nil => exact List.suffix_rfl
  | cons c t ih =>
    rw [List.dropWhile_cons]
    split
    · exact ih.trans (List.suffix_cons c t)
    · exact List.suffix_rfl

/-- The reverse of a suffix is a prefix of the reverse. -/
theorem reverse_prefix_of_suffix {x z : List Char} (h : x <:+ z) :
    x.reverse <+: z.reverse := by
  obtain ⟨p, rfl⟩ := h
  exact ⟨p.reverse, by simp⟩

/-- Stripping whitespace from a line cannot create a date match: if the
stripped line contains the date pattern, so did the raw line. -/
theorem hasDate_trimL {l : List Char} (h : hasDate (trimL l) = true) :
    hasDate l = true := by
  have h2 : (l.dropWhile Char.isWhitespace).reverse.dropWhile Char.isWhitespace <:+
      (l.dropWhile Char.isWhitespace).reverse :=
    dropWhile_isSuffix _ _
  have h3 : trimL l <+: l.dropWhile Char.isWhitespace := by
    rw [trimL]
    have h4 := reverse_prefix_of_suffix h2
    rwa [List.reverse_reverse] at h4
  obtain ⟨t1, ht1⟩ := h3
  obtain ⟨t2, ht2⟩ := dropWhile_isSuffix Char.isWhitespace l
  rw [← ht2]
  apply hasDate_append_left
  rw [← ht1]
  exact hasDate_append_right t1 h

/-- C6: text none of whose lines contains a `DD-MM-YYYY`-shaped token parses
to the empty table; lines without the token are discarded, and date-bearing
lines with fewer than 3 whitespace tokens are discarded. -/
theorem no_date_no_records (kws : List String) (text : String)
    (h : ∀ l ∈ splitChar '\n' text.toList, hasDate l = false) :
    parseTransactions kws text = [] ∧
    (∀ line : List Char, hasDate line = false → parseLine kws line = none) ∧
    (∀ line : List Char, (wsSplit (trimL line)).length < 3 →
      parseLine kws line = none) := by
  have hno : ∀ line : List Char, hasDate line = false → parseLine kws line = none := by
    intro line hl
    have htr : hasDate (trimL line) = false := by
      cases htrim : hasDate (trimL line)
      · rfl
      · rw [hasDate_trimL htrim] at hl
        cases hl
    simp [parseLine, htr]
  refine ⟨?_, hno, ?_⟩
  · rw [parseTransactions, List.filterMap_eq_nil_iff]
    intro l hl
    exact hno l (h l hl)
  · intro line hlt
    rw [parseLine]
    split
    · rfl
    · split
      · rfl
      · split
        · rename_i date p2 p3 rest heq
          rw [heq] at hlt
          simp only [List.length_cons] at hlt
          omega
        · rfl

/-- C6 (witness): a concrete dateless two-line text. -/
theorem no_date_no_records_witness :
    parseTransactions iciciKeywords "hello world\nfoo 12.00" = [] :=
  (no_date_no_records iciciKeywords "hello world\nfoo 12.00" (by decide)).1

/-- C7 (counterexample): the token `12.345` does not fully match the spec's
amount pattern (it carries three decimal digits), yet the parser classifies
it as an amount — `re.match` anchors only at the start of the token — so the
line is accepted with credit `12.345` instead of folding the token into the
description and rejecting the record. -/
theorem amount_token_fullmatch_counterexample :
    parseLine iciciKeywords ("01-01-2024 Shop 12.345".toList) =
      some ⟨"01-01-2024".toList, "Shop".toList, [], "12.345".toList, []⟩ ∧
    specFullAmountTok ("12.345".toList) = false := by decide

/-- Declarative reading of `twoDigits`. -/
theorem twoDigits_iff (l : List Char) :
    twoDigits l = true ↔
      ∃ a b r, l = a :: b :: r ∧ a.isDigit = true ∧ b.isDigit = true := by
  cases l with
  | nil => simp [twoDigits]
  | cons a t =>
    cases t with
    | nil => simp [twoDigits]
    | cons b r =>
      simp only [twoDigits, Bool.and_eq_true]
      constructor
      · rintro ⟨h1, h2⟩
        exact ⟨a, b, r, rfl, h1, h2⟩
      · rintro ⟨a2, b2, r2, heq, h1, h2⟩
        injection heq with e1 e2
        injection e2 with e3 e4
        subst e1
        subst e3
        exact ⟨h1, h2⟩

/-- Declarative reading of `amountTail`: the remaining characters are zero
or more `[\d,]` characters, a dot, and two digits (with anything after). -/
theorem amountTail_iff (l : List Char) :
    amountTail l = true ↔
      ∃ ds a b r, l = ds ++ '.' :: a :: b :: r ∧
        (∀ c ∈ ds, isAmountCls c = true) ∧ a.isDigit = true ∧ b.isDigit = true := by
  induction l with
  | nil =>
    constructor
    · intro h
      exact absurd h (by decide)
    · rintro ⟨ds, a, b, r, heq, -, -, -⟩
      exact absurd heq (by cases ds <;> simp)
  | cons c t ih =>
    rw [amountTail]
    by_cases hcls : isAmountCls c = true
    · rw [if_pos hcls, ih]
      constructor
      · rintro ⟨ds, a, b, r, rfl, hds, ha, hb⟩
        refine ⟨c :: ds, a, b, r, rfl, ?_, ha, hb⟩
        intro x hx
        rcases List.mem_cons.mp hx with hx | hx
        · rw [hx]; exact hcls
        · exact hds x hx
      · rintro ⟨ds, a, b, r, heq, hds, ha, hb⟩
        cases ds with
        | nil =>
          injection heq with e1 e2
          rw [e1] at hcls
          exact absurd hcls (by decide)
        | cons d ds2 =>
          injection heq with e1 e2
          exact ⟨ds2, a, b, r, e2, fun x hx => hds x (List.mem_cons_of_mem d hx), ha, hb⟩
    · rw [if_neg hcls]
      by_cases hdot : c = '.'
      · subst hdot
        rw [if_pos rfl, twoDigits_iff]
        constructor
        · rintro ⟨a, b, r, rfl, ha, hb⟩
          exact ⟨[], a, b, r, rfl, by simp, ha, hb⟩
        · rintro ⟨ds, a, b, r, heq, hds, ha, hb⟩
          cases ds with
          | nil =>
            injection heq with e1 e2
            exact ⟨a, b, r, e2, ha, hb⟩
          | cons d ds2 =>
            injection heq with e1 e2
            have hd := hds d (List.mem_cons_self d ds2)
            rw [← e1] at hd
            exact absurd hd (by decide)
      · rw [if_neg hdot]
        constructor
        · intro hfalse
          exact absurd hfalse (by decide)
        · rintro ⟨ds, a, b, r, heq, hds, ha, hb⟩
          cases ds with
          | nil =>
            injection heq with e1 e2
            exact absurd e1 hdot
          | cons d ds2 =>
            injection heq with e1 e2
            have hd := hds d (List.mem_cons_self d ds2)
            rw [← e1] at hd
            exact absurd hd hcls

/-- C7 (amended): a token after the date is classified as an amount if and
only if some prefix of it consists of one or more digit-or-comma characters,
a literal decimal point and two decimal digits (the unanchored `re.match`
semantics); every token so classified enters the amount list with its commas
stripped, and every other token is appended to the description in order. -/
theorem amount_token_classification (cs : List Char) :
    (isAmountTok cs = true ↔ AmountPrefixShape cs) ∧
    ∀ rest : List (List Char),
      lineAmountsOf rest = (rest.filter isAmountTok).map stripCommas ∧
      lineDescOf rest = joinSpaces (rest.filter (fun p => !(isAmountTok p))) := by
  refine ⟨?_, fun rest => ⟨rfl, rfl⟩⟩
  simp only [AmountPrefixShape]
  cases cs with
  | nil =>
    constructor
    · intro h
      exact absurd h (by decide)
    · rintro ⟨ds, a, b, r, heq, hne, -, -, -⟩
      cases ds with
      | nil => exact absurd rfl hne
      | cons d ds2 => exact absurd heq (by simp)
  | cons c t =>
    rw [isAmountTok, Bool.and_eq_true, amountTail_iff]
    constructor
    · rintro ⟨hcls, ds, a, b, r, rfl, hds, ha, hb⟩
      refine ⟨c :: ds, a, b, r, rfl, by simp, ?_, ha, hb⟩
      intro x hx
      rcases List.mem_cons.mp hx with hx | hx
      · rw [hx]; exact hcls
      · exact hds x hx
    · rintro ⟨ds, a, b, r, heq, hne, hds, ha, hb⟩
      cases ds with
      | nil => exact absurd rfl hne
      | cons d ds2 =>
        injection heq with e1 e2
        subst e1
        exact ⟨hds c (List.mem_cons_self c ds2),
          ds2, a, b, r, e2, fun x hx => hds x (List.mem_cons_of_mem c hx), ha, hb⟩

/-- C7 (witness for the amended theorem): `1,234.56` satisfies the prefix
shape. -/
theorem amount_token_classification_witness :
    AmountPrefixShape ("1,234.56".toList) :=
  ((amount_token_classification ("1,234.56".toList)).1).mp (by decide)

/-- A named column is present exactly when its name is among the column
names. -/
theorem dfCol_isSome {df : DF} {name : String} (h : name ∈ df.cols) :
    ∃ x, dfCol df name = some x := by
  rw [dfCol]
  cases hf : df.cols.findIdx? (fun c => c = name) with
  | some i => exact ⟨_, rfl⟩
  | none =>
    exfalso
    have h2 := List.findIdx?_eq_none_iff.mp hf name h
    simp at h2

/-- `colEquals` agrees with equality of the extracted columns whenever both
tables carry the column. -/
theorem colEquals_iff {a b : DF} {name : String}
    (ha : name ∈ a.cols) (hb : name ∈ b.cols) :
    colEquals a b name = true ↔ dfCol a name = dfCol b name := by
  obtain ⟨x, hx⟩ := dfCol_isSome ha
  obtain ⟨y, hy⟩ := dfCol_isSome hb
  rw [colEquals, hx, hy]
  simp

/-- C4: the lenient pass is consulted only when the exact (normalized)
comparison fails, and — for tables carrying the `Date` and `Balance`
columns — it succeeds exactly when the row counts agree, the column lists
agree, and the normalized `Date` and `Balance` columns agree elementwise;
mismatches confined to the remaining cells (`Description`, `Debit Amt`,
`Credit Amt`) are invisible to it. -/
theorem lenient_pass_characterization (r e : DF)
    (hr : "Date" ∈ r.cols) (hb : "Balance" ∈ r.cols) :
    (compareDF r e = CmpResult.passLenient → normalizeDF r ≠ normalizeDF e) ∧
    (normalizeDF r ≠ normalizeDF e →
      (compareDF r e = CmpResult.passLenient ↔
        r.rows.length = e.rows.length ∧ r.cols = e.cols ∧
        dfCol (normalizeDF r) "Date" = dfCol (normalizeDF e) "Date" ∧
        dfCol (normalizeDF r) "Balance" = dfCol (normalizeDF e) "Balance")) := by
  have hrn : "Date" ∈ (normalizeDF r).cols := hr
  have hbn : "Balance" ∈ (normalizeDF r).cols := hb
  constructor
  · intro hpl hne
    rw [compareDF, if_pos hne] at hpl
    cases hpl
  · intro hne
    rw [compareDF, if_neg hne]
    constructor
    · intro hpl
      split at hpl
      · rename_i hcond
        obtain ⟨h1, h2, h3, h4⟩ := hcond
        have hen : "Date" ∈ (normalizeDF e).cols := by
          rw [← h2]; exact hrn
        have hbn2 : "Balance" ∈ (normalizeDF e).cols := by
          rw [← h2]; exact hbn
        refine ⟨by simpa [normalizeDF] using h1, h2, ?_, ?_⟩
        · exact (colEquals_iff hrn hen).mp h3
        · exact (colEquals_iff hbn hbn2).mp h4
      · cases hpl
    · rintro ⟨h1, h2, h3, h4⟩
      have hen : "Date" ∈ (normalizeDF e).cols := by
        show "Date" ∈ e.cols
        rw [← h2]; exact hr
      have hbn2 : "Balance" ∈ (normalizeDF e).cols := by
        show "Balance" ∈ e.cols
        rw [← h2]; exact hb
      rw [if_pos]
      refine ⟨by simpa [normalizeDF] using h1, h2, ?_, ?_⟩
      · exact (colEquals_iff hrn hen).mpr h3
      · exact (colEquals_iff hbn hbn2).mpr h4

/-- C4 (witness): concrete tables differing only in `Description` pass the
lenient check after the exact check fails. -/
theorem lenient_pass_characterization_witness :
    compareDF dfLenR dfLenE = CmpResult.passLenient :=
  ((lenient_pass_characterization dfLenR dfLenE (by decide) (by decide)).2
    (by decide)).mpr ⟨by decide, by decide, by decide, by decide⟩

/-- A string the date parser accepts is non-empty and is rejected by the
numeric parser (its dash ends the digit prefix). -/
theorem parseDate_structure {s : String} {dmy : ℕ × ℕ × ℕ}
    (h : parseDate s = some dmy) : parseNum s = none ∧ s ≠ "" := by
  simp only [parseDate] at h
  split at h
  · rename_i r2 heq
    split at h
    · rename_i ys heq2
      split at h
      · rename_i hc1
        have hlen : 1 ≤ (s.toList.takeWhile Char.isDigit).length := hc1.1
        have hls : s.toList ≠ [] := by
          intro he
          rw [he] at hlen
          simp at hlen
        cases hcs : s.toList with
        | nil => exact absurd hcs hls
        | cons c0 t0 =>
          rw [hcs] at hlen
          rw [List.takeWhile_cons] at hlen
          have hdig : c0.isDigit = true := by
            by_contra hcon
            rw [if_neg hcon] at hlen
            simp at hlen
          have hc0 : ¬(c0 = '-') := by
            intro he
            rw [he] at hdig
            exact absurd hdig (by decide)
          constructor
          · rw [parseNum, hcs]
            simp only [if_neg hc0]
            rw [← hcs, heq]
            rfl
          · intro he
            rw [he] at hcs
            simp at hcs
      · exact absurd h (by simp)
    · exact absurd h (by simp)
  · exact absurd h (by simp)

/-- A cell-wise identity round trip lifts to `mapM`. -/
theorem mapM_some_id {l : List Cell}
    (h : ∀ c ∈ l, dateCellRoundTrip c = some c) :
    l.mapM dateCellRoundTrip = some l := by
  induction l with
  | nil => rfl
  | cons c t ih =>
    rw [List.mapM_cons, h c (List.mem_cons_self c t),
      ih (fun x hx => h x (List.mem_cons_of_mem c hx))]
    rfl

/-- Mapping a cell function over reassembled rows equals reassembling the
mapped columns. -/
theorem zipRows5_map (f : Cell → Cell) :
    ∀ la lb lc ld le2 : List Cell,
      (zipRows5 la lb lc ld le2).map (List.map f) =
        zipRows5 (la.map f) (lb.map f) (lc.map f) (ld.map f) (le2.map f) := by
  intro la
  induction la with
  | nil =>
    intro lb lc ld le2
    cases lb <;> cases lc <;> cases ld <;> cases le2 <;> rfl
  | cons a ta ih =>
    intro lb lc ld le2
    cases lb with
    | nil => rfl
    | cons b tb =>
      cases lc with
      | nil => rfl
      | cons c tc =>
        cases ld with
        | nil => rfl
        | cons d td =>
          cases le2 with
          | nil => rfl
          | cons e te =>
            simp only [zipRows5, List.map_cons, List.map_nil]
            rw [ih]

/-- Normalization erases the debit/credit fixup applied by the fallback on a
numeric column cell. -/
theorem norm_fix_cell (s : String) :
    normCell (fillnaEmptyStr (toNumericCoerce (rawToCellNum s))) =
      normCell (rawToCellNum s) := by
  rw [rawToCellNum]
  split <;> rfl

/-- Normalization erases the balance coercion applied by the fallback on a
numeric column cell. -/
theorem norm_toNum_cell (s : String) :
    normCell (toNumericCoerce (rawToCellNum s)) = normCell (rawToCellNum s) := by
  rw [rawToCellNum]
  split <;> rfl

/-- A column whose every field is empty or numeric is inferred numeric. -/
theorem inferCol_num {cells : List String}
    (h : ∀ s ∈ cells, s = "" ∨ (parseNum s).isSome = true) :
    inferCol cells = cells.map rawToCellNum := by
  rw [inferCol, if_pos]
  rw [List.all_eq_true]
  intro s hs
  rcases h s hs with h2 | h2
  · rw [h2]
    rfl
  · simp [h2]

/-- A column containing a non-empty non-numeric field is inferred as an
object (string) column. -/
theorem inferCol_str {cells : List String} {s0 : String}
    (h0 : s0 ∈ cells) (hne : s0 ≠ "") (hnum : parseNum s0 = none) :
    inferCol cells = cells.map rawToCellStr := by
  rw [inferCol, if_neg]
  intro hall
  have h2 := List.all_eq_true.mp hall s0 h0
  rw [hnum] at h2
  simp at h2
  exact hne h2

/-- A date string that round-trips is returned unchanged by the cellwise
`to_datetime`/`strftime` pipeline. -/
theorem dateCell_roundTrip_self {s : String}
    (h : (parseDate s).map formatDate = some s) (hne : s ≠ "") :
    dateCellRoundTrip (rawToCellStr s) = some (rawToCellStr s) := by
  rw [rawToCellStr, if_neg hne]
  cases hp : parseDate s with
  | none =>
    rw [hp] at h
    cases h
  | some dmy =>
    rw [hp] at h
    simp only [Option.map_some'] at h
    injection h with h2
    simp [dateCellRoundTrip, hp, h2]

/-- Normalizing the fallback's debit/credit column gives the normalized raw
column back. -/
theorem col_fix_norm (cells : List String) :
    ((cells.map rawToCellNum).map
        (fun c => fillnaEmptyStr (toNumericCoerce c))).map normCell =
      (cells.map rawToCellNum).map normCell := by
  simp only [List.map_map]
  apply List.map_congr_left
  intro s _
  exact norm_fix_cell s

/-- Normalizing the fallback's balance column gives the normalized raw
column back. -/
theorem col_toNum_norm (cells : List String) :
    ((cells.map rawToCellNum).map toNumericCoerce).map normCell =
      (cells.map rawToCellNum).map normCell := by
  simp only [List.map_map]
  apply List.map_congr_left
  intro s _
  exact norm_toNum_cell s

/-- Core of the fallback path: on a well-formed reference CSV the fallback
succeeds and its output passes the exact comparison against the raw
reference table. -/
theorem fallback_replays_reference {rows : List CsvRow}
    (hwf : WellFormedCsv rows) :
    (fallbackToCsv rows).map (fun df => compareDF df (readCsv rows)) =
      some CmpResult.pass := by
  cases rows with
  | nil => decide
  | cons r0 rtl =>
    obtain ⟨hd0, hdb0, hcr0, hba0⟩ := hwf r0 (List.mem_cons_self r0 rtl)
    cases hp0 : parseDate r0.date with
    | none =>
      rw [hp0] at hd0
      cases hd0
    | some dmy0 =>
      obtain ⟨hnum0, hne0⟩ := parseDate_structure hp0
      have hdcol : inferCol ((r0 :: rtl).map (fun r => r.date)) =
          ((r0 :: rtl).map (fun r => r.date)).map rawToCellStr :=
        inferCol_str (List.mem_map_of_mem _ (List.mem_cons_self r0 rtl)) hne0 hnum0
      have hdates : ∀ c ∈ ((r0 :: rtl).map (fun r => r.date)).map rawToCellStr,
          dateCellRoundTrip c = some c := by
        intro c hc
        rw [List.mem_map] at hc
        obtain ⟨s, hs, rfl⟩ := hc
        rw [List.mem_map] at hs
        obtain ⟨r, hr, rfl⟩ := hs
        obtain ⟨hdr, -, -, -⟩ := hwf r hr
        cases hpr : parseDate r.date with
        | none =>
          rw [hpr] at hdr
          cases hdr
        | some dmyr =>
          exact dateCell_roundTrip_self hdr (parseDate_structure hpr).2
      have hmapM : (inferCol ((r0 :: rtl).map (fun r => r.date))).mapM
          dateCellRoundTrip = some (inferCol ((r0 :: rtl).map (fun r => r.date))) := by
        rw [hdcol]
        exact mapM_some_id hdates
      have hdbcol : inferCol ((r0 :: rtl).map (fun r => r.debit)) =
          ((r0 :: rtl).map (fun r => r.debit)).map rawToCellNum := by
        apply inferCol_num
        intro s hs
        rw [List.mem_map] at hs
        obtain ⟨r, hr, rfl⟩ := hs
        exact (hwf r hr).2.1
      have hcrcol : inferCol ((r0 :: rtl).map (fun r => r.credit)) =
          ((r0 :: rtl).map (fun r => r.credit)).map rawToCellNum := by
        apply inferCol_num
        intro s hs
        rw [List.mem_map] at hs
        obtain ⟨r, hr, rfl⟩ := hs
        exact (hwf r hr).2.2.1
      have hbacol : inferCol ((r0 :: rtl).map (fun r => r.balance)) =
          ((r0 :: rtl).map (fun r => r.balance)).map rawToCellNum := by
        apply inferCol_num
        intro s hs
        rw [List.mem_map] at hs
        obtain ⟨r, hr, rfl⟩ := hs
        exact (hwf r hr).2.2.2
      rw [fallbackToCsv, hmapM]
      simp only [Option.map_some']
      rw [compareDF, if_pos]
      rw [readCsv, normalizeDF, normalizeDF]
      simp only
      rw [zipRows5_map, zipRows5_map]
      rw [hdbcol, hcrcol, hbacol]
      rw [col_fix_norm, col_fix_norm, col_toNum_norm]

/-- C2 (corrected, counterexample): with extraction failing and a reference
CSV whose `Debit Amt` field holds the non-numeric string `abc`, the parser
does take the fallback path, but the fallback output does not pass the
exact check — `to_numeric` coerces `abc` to the empty sentinel while the raw
reference keeps the string — and the test passes only leniently. -/
theorem fallback_not_always_exact_counterexample :
    parseDoc iciciKeywords (Except.error "boom") (some csvBad) = fallbackToCsv csvBad ∧
    (fallbackToCsv csvBad).map (fun df => compareDF df (readCsv csvBad)) =
      some CmpResult.passLenient := by
  decide

/-- C2 (amended): whenever extraction raises or yields zero records and the
reference CSV is present, the generated parser's output is exactly the
fallback's re-derivation from the reference CSV; and for a well-formed
reference CSV (dates round-trip through `DD-MM-YYYY`, amount fields empty or
numeric) that fallback output passes the Comparator's exact check against
the raw reference table. -/
theorem fallback_path_passes_exact (kws : List String)
    (extract : Except String String) (rows : List CsvRow)
    (hwf : WellFormedCsv rows)
    (htrig : (∃ e, extract = Except.error e) ∨
      (∃ text, extract = Except.ok text ∧ parseTransactions kws text = [])) :
    parseDoc kws extract (some rows) = fallbackToCsv rows ∧
    (parseDoc kws extract (some rows)).map (fun df => compareDF df (readCsv rows)) =
      some CmpResult.pass := by
  have h1 : parseDoc kws extract (some rows) = fallbackToCsv rows := by
    rcases htrig with ⟨e, rfl⟩ | ⟨text, rfl, hemp⟩
    · rfl
    · rw [parseDoc]
      simp [hemp]
  refine ⟨h1, ?_⟩
  rw [h1]
  exact fallback_replays_reference hwf

/-- C2 (witness for the amended theorem): the concrete well-formed reference
CSV `csvGood` with a failing extraction. -/
theorem fallback_path_passes_exact_witness :
    (parseDoc iciciKeywords (Except.error "no text") (some csvGood)).map
      (fun df => compareDF df (readCsv csvGood)) = some CmpResult.pass :=
  (fallback_path_passes_exact iciciKeywords (Except.error "no text") csvGood
    (by unfold WellFormedCsv NumOrEmpty; decide) (Or.inl ⟨"no text", rfl⟩)).2

end AgentSpec
